import Mathlib

/-!
# Verification of the bod-report normalization / sort / filter pipeline

Shallow embedding of the data pipeline in `web-ui/src/App.jsx`:
status normalization, phase derivation, BoD-flag classification,
quarter parsing, row normalization, the cancelled-row filter, the
(progress rank, quarter) sort, and the live search/toggle filter.

Strings are modelled as Lean `String` (lists of characters); JavaScript
string helpers (`toLowerCase`, `trim`, `includes`) are modelled over
`List Char` with ASCII case semantics.  Absent / `undefined` values are
modelled with `Option`.  `Array.prototype.sort`, which ECMAScript 2019
requires to be a stable sort, is modelled by the stable
`List.insertionSort`.
-/

namespace BodReport

/-! ## JavaScript string primitives -/

/-- Boolean prefix test on character lists: does `sub` start `hay`? -/
def isPrefixL : List Char → List Char → Bool
  | [], _ => true
  | _ :: _, [] => false
  | a :: as, b :: bs => a = b && isPrefixL as bs

/-- Does `sub` occur as a contiguous substring of `hay`?  Model of
`hay.includes(sub)` (scans every suffix of `hay`). -/
def includesL (sub : List Char) : List Char → Bool
  | [] => isPrefixL sub []
  | c :: rest => isPrefixL sub (c :: rest) || includesL sub rest

/-- Model of JavaScript `hay.includes(sub)`. -/
def jsIncludes (hay sub : String) : Bool :=
  includesL sub.data hay.data

/-- Model of JavaScript `s.toLowerCase()` (ASCII case folding). -/
def jsToLower (s : String) : String :=
  ⟨s.data.map Char.toLower⟩

/-- JavaScript whitespace characters (ASCII fragment). -/
def jsWhitespace (c : Char) : Bool :=
  c = ' ' || c = '\t' || c = '\n' || c = '\r' || c = '\x0b' || c = '\x0c'

/-- Model of JavaScript `s.trim()`. -/
def jsTrim (s : String) : String :=
  ⟨((s.data.dropWhile jsWhitespace).reverse.dropWhile jsWhitespace).reverse⟩

/-- JavaScript `xs.indexOf(x)` on a list of strings, with accumulator. -/
def indexOfAux (x : String) : List String → Nat → Int
  | [], _ => -1
  | y :: ys, i => if y = x then (i : Int) else indexOfAux x ys (i + 1)

/-- JavaScript `xs.indexOf(x)`: index of the first occurrence, `-1` if absent. -/
def indexOfJS (xs : List String) (x : String) : Int :=
  indexOfAux x xs 0

/-! ## Workflow constants (`WORKFLOW_PHASES`, `DISPLAY_PHASES`) -/

def WORKFLOW_PHASES : List String :=
  ["Inception", "Planning", "Development", "Stabilization", "Freeze",
   "Ratification-Ready", "Specification in Publication"]

def DISPLAY_PHASES : List String :=
  ["Planning", "Development", "Stabilization", "Freeze",
   "Ratification-Ready", "Specification in Publication"]

/-! ## `normalizeStatus` -/

/-- Function `normalizeStatus` from `App.jsx`: falsy input gives `""`, otherwise an
ordered first-match-wins chain of case-insensitive substring rules, with
passthrough of unrecognized values. -/
def normalizeStatus (value : Option String) : String :=
  match value with
  | none => ""
  | some v =>
    if v = "" then ""
    else
      let lower := jsToLower v
      if jsIncludes lower "ratification-ready" || jsIncludes lower "rat-ready" then
        "Ratification-Ready"
      else if jsIncludes lower "specification in publication" || jsIncludes lower "publication" then
        "Specification in Publication"
      else if jsIncludes lower "freeze" then "Freeze"
      else if jsIncludes lower "stabilization" then "Stabilization"
      else if jsIncludes lower "under development" || jsIncludes lower "development" then
        "Development"
      else if jsIncludes lower "planning" then "Planning"
      else if jsIncludes lower "inception" then "Inception"
      else if jsIncludes lower "cancelled" then "Cancelled"
      else v

/-! ## `calculateProgress` -/

/-- Function `calculateProgress` from `App.jsx`: derives `(currentPhase, nextPhase)`. -/
def calculateProgress (status : Option String) : String × String :=
  match status with
  | none => ("", "")
  | some s =>
    if s = "" then ("", "")
    else
      let normalized := normalizeStatus (some s)
      let idx := indexOfJS WORKFLOW_PHASES normalized
      if idx = -1 then (normalized, "")
      else
        let nextPhase :=
          if idx + 1 < (WORKFLOW_PHASES.length : Int) then
            WORKFLOW_PHASES.getD (idx + 1).toNat ""
          else "Ratified"
        (normalized, nextPhase)

/-! ## `isBodReport` -/

/-- Function `isBodReport` from `App.jsx`. -/
def isBodReport (value : Option String) : Bool :=
  match value with
  | none => false
  | some s =>
    let normalized := jsToLower (jsTrim s)
    if normalized = "" then false
    else if (["yes", "true", "y", "1"] : List String).contains normalized then true
    else if (["no", "false", "n", "0"] : List String).contains normalized then false
    else jsIncludes normalized "yes"

/-! ## `parseQuarter`

The source applies the regular expression `(\d{2,4})\D*([1-4])` to the
trimmed text and takes the first match (leftmost start position; at a
given position the greedy `\d{2,4}` tries widths 4, 3, 2 in that order;
the greedy `\D*` must then consume the whole non-digit run, after which
`[1-4]` must match a digit between 1 and 4). -/

structure QuarterKey where
  year : Nat
  qtr : Nat
deriving Repr, DecidableEq

/-- Length of the maximal digit prefix of a character list (`\d`-run). -/
def digitRun : List Char → Nat
  | [] => 0
  | c :: cs => if c.isDigit then digitRun cs + 1 else 0

/-- Decimal value of a digit list (model of `parseInt`). -/
def digitsToNat (cs : List Char) : Nat :=
  cs.foldl (fun acc c => acc * 10 + (c.toNat - '0'.toNat)) 0

/-- One match attempt of `(\d{2,4})\D*([1-4])` at the head of `cs`, with the
year group fixed to width `d`: the first `d` characters must be digits,
then the maximal non-digit run is skipped, then a digit 1–4 must follow. -/
def tryWidth (cs : List Char) (d : Nat) : Option (Nat × Nat) :=
  if d ≤ digitRun cs then
    match (cs.drop d).dropWhile (fun c => !c.isDigit) with
    | c :: _ =>
      let q := c.toNat - '0'.toNat
      if 1 ≤ q ∧ q ≤ 4 then some (digitsToNat (cs.take d), q) else none
    | [] => none
  else none

/-- Match attempt at the head of `cs`: greedy year widths 4, 3, 2. -/
def matchAt (cs : List Char) : Option (Nat × Nat) :=
  match tryWidth cs 4 with
  | some m => some m
  | none =>
    match tryWidth cs 3 with
    | some m => some m
    | none => tryWidth cs 2

/-- Leftmost match of `(\d{2,4})\D*([1-4])`, scanning start positions left
to right. -/
def findQuarterMatch : List Char → Option (Nat × Nat)
  | [] => none
  | c :: cs =>
    match matchAt (c :: cs) with
    | some m => some m
    | none => findQuarterMatch cs

/-- Function `parseQuarter` from `App.jsx`. -/
def parseQuarter (value : Option String) : QuarterKey :=
  match value with
  | none => ⟨9999, 9⟩
  | some s =>
    if s = "" then ⟨9999, 9⟩
    else
      let text := jsTrim s
      match findQuarterMatch text.data with
      | none => ⟨9999, 9⟩
      | some (y, q) =>
        let year := if y < 100 then y + 2000 else y
        ⟨year, q⟩

/-! ## `normalizeRow` -/

/-- A parsed CSV record: a partial mapping from column names to strings. -/
def RawRecord : Type := String → Option String

/-- Column access `raw[k] || ""` for an absent-or-present column. -/
def col (raw : RawRecord) (k : String) : String :=
  (raw k).getD ""

/-- JavaScript `a || b` on strings (empty string is falsy). -/
def jsOr (a b : String) : String :=
  if a = "" then b else a

structure Row where
  jiraUrl : String
  summary : String
  status : String
  updated : String
  isaOrNonIsa : String
  plannedQuarter : String
  trendingQuarter : String
  ratificationProgress : String
  previousRatificationProgress : String
  github : String
  bodReport : String
  bodFlag : Bool
  currentPhase : String
  nextPhase : String
deriving Repr, DecidableEq

/-- Function `normalizeRow` from `App.jsx`. -/
def normalizeRow (raw : RawRecord) : Row :=
  let status := col raw "Status"
  let planned :=
    jsOr (col raw "Baseline Ratification Quarter") (col raw "Planned Ratification Quarter")
  let trending :=
    jsOr (col raw "Target Ratification Quarter") (col raw "Trending Ratification Quarter")
  let bodReport := col raw "BoD Report"
  let phases := calculateProgress (some status)
  Row.mk
    (col raw "Jira URL")            -- jiraUrl
    (col raw "Summary")             -- summary
    status                          -- status
    (col raw "Updated")             -- updated
    (col raw "ISA or NON-ISA?")     -- isaOrNonIsa
    planned                         -- plannedQuarter
    trending                        -- trendingQuarter
    (col raw "Ratification Progress")          -- ratificationProgress
    (col raw "Previous Ratification Progress") -- previousRatificationProgress
    (col raw "GitHub")              -- github
    bodReport                       -- bodReport
    (isBodReport (some bodReport))  -- bodFlag
    phases.1                        -- currentPhase
    phases.2                        -- nextPhase

/-! ## The collection pipeline: cancelled filter, sort, display filter -/

/-- The predicate of the `withoutCancelled` filter in `App.jsx`. -/
def keepRow (row : Row) : Bool :=
  !(jsIncludes (jsToLower row.status) "cancelled")

/-- A value produced by the JavaScript property lookup
`progressOrder[key]`: either one of the numeric own-property values (or
the `?? 99` default), or a value inherited from `Object.prototype`
(`Object.prototype.constructor`, `Object.prototype.toString`, ..., or
`Object.prototype` itself via the `__proto__` accessor). Each inherited
property holds a distinct object, so strict equality (`!==`) between
inherited values is equality of the property names. -/
inductive JsProtoVal where
  | num : Nat → JsProtoVal
  | inherited : String → JsProtoVal
deriving Repr, DecidableEq

/-- The own property names of `Object.prototype` (including the Annex B
accessor helpers). An object literal inherits all of these, so a plain
`obj[key]` lookup at any of these names is non-nullish. Only the
all-lowercase names (`"constructor"`, `"__proto__"`) are reachable from a
lower-cased key. -/
def OBJECT_PROTOTYPE_PROPS : List String :=
  ["constructor", "hasOwnProperty", "isPrototypeOf", "propertyIsEnumerable",
   "toLocaleString", "toString", "valueOf", "__proto__",
   "__defineGetter__", "__defineSetter__", "__lookupGetter__", "__lookupSetter__"]

/-- The JavaScript lookup `progressOrder[key]` on the object literal
`{late: 0, exposed: 1, "on track": 2, completed: 3}` in `App.jsx`: own
properties first, then the `Object.prototype` chain, `undefined`
otherwise. -/
def progressOrder (key : String) : Option JsProtoVal :=
  if key = "late" then some (.num 0)
  else if key = "exposed" then some (.num 1)
  else if key = "on track" then some (.num 2)
  else if key = "completed" then some (.num 3)
  else if OBJECT_PROTOTYPE_PROPS.contains key then some (.inherited key)
  else none

/-- Lookup `progressOrder[key] ?? 99` applied to a row's lower-cased
`ratificationProgress`. The `?? 99` default fires only when the lookup is
nullish, so inherited `Object.prototype` values pass through. -/
def progressVal (r : Row) : JsProtoVal :=
  (progressOrder (jsToLower r.ratificationProgress)).getD (.num 99)

/-- The sort comparator passed to `withoutCancelled.sort` in `App.jsx`,
composed with the `SortCompare` step of the ECMAScript sort: when the two
progress values differ under `!==` and are both numbers, the comparator
returns their difference; when either operand is a non-number inherited
object, the subtraction evaluates to `NaN`, which `SortCompare` maps to
`+0` (a tie). -/
def sortCmp (a b : Row) : Int :=
  let progressA := progressVal a
  let progressB := progressVal b
  if progressA ≠ progressB then
    match progressA, progressB with
    | .num x, .num y => (x : Int) - (y : Int)
    | _, _ => 0
  else
    let quarterA := parseQuarter (some a.trendingQuarter)
    let quarterB := parseQuarter (some b.trendingQuarter)
    if (quarterA.year : Int) ≠ (quarterB.year : Int) then
      (quarterA.year : Int) - (quarterB.year : Int)
    else (quarterA.qtr : Int) - (quarterB.qtr : Int)

/-- Row `a` may be placed before `b` by the comparator (comparator value `≤ 0`). -/
def rowLe (a b : Row) : Prop :=
  sortCmp a b ≤ 0

instance : DecidableRel rowLe := fun a b =>
  inferInstanceAs (Decidable (sortCmp a b ≤ 0))

/-- The stable sort of `App.jsx` (`Array.prototype.sort` is stable since
ECMAScript 2019), modelled by the stable `List.insertionSort`. -/
def sortRows (rows : List Row) : List Row :=
  List.insertionSort rowLe rows

/-- The full snapshot pipeline: `parsed.data.map(normalizeRow)`, the
`withoutCancelled` filter, then the stable sort. -/
def pipeline (raws : List RawRecord) : List Row :=
  sortRows ((raws.map normalizeRow).filter keepRow)

/-- The `displayRows` view filter in `App.jsx` (search term and BoD-only
toggle over the sorted base collection). -/
def displayRows (rows : List Row) (searchTerm : String) (bodOnly : Bool) : List Row :=
  let term := jsToLower (jsTrim searchTerm)
  rows.filter (fun row =>
    (term = "" || jsIncludes (jsToLower row.summary) term)
      && (!bodOnly || row.bodFlag))

/-! ## `getPhaseDisplay` -/

/-- Function `getPhaseDisplay` from `App.jsx`, as a function from a display phase
name to the rendered cell state. -/
def getPhaseDisplay (row : Row) (phase : String) : String :=
  let currentIndex := indexOfJS WORKFLOW_PHASES row.currentPhase
  let phaseIndex := indexOfJS WORKFLOW_PHASES phase
  if phase = row.currentPhase then "In Progress"
  else if 0 ≤ currentIndex ∧ phaseIndex < currentIndex then "✓"
  else "..."

/-! ## Specification-side definitions

These re-state, in the specification's own words, the sort key and the
status rule table, to be compared with the source-derived definitions
above. -/

/-- Progress rank as worded in the specification: the lower-cased label
`late` ranks 0, `exposed` 1, `on track` 2, `completed` 3, anything else
(including empty) 99. -/
def claimRank (label : String) : Nat :=
  let l := jsToLower label
  if l = "late" then 0
  else if l = "exposed" then 1
  else if l = "on track" then 2
  else if l = "completed" then 3
  else 99

/-- The sort key of the specification: progress rank, then the parsed
trending quarter's year and quarter. -/
def claimKey (row : Row) : Nat × Nat × Nat :=
  let q := parseQuarter (some row.trendingQuarter)
  (claimRank row.ratificationProgress, q.year, q.qtr)

/-- Ascending lexicographic comparison of sort keys: rank first, then
year, then quarter. -/
def claimKeyLe (x y : Nat × Nat × Nat) : Prop :=
  x.1 < y.1 ∨ (x.1 = y.1 ∧ (x.2.1 < y.2.1 ∨ (x.2.1 = y.2.1 ∧ x.2.2 ≤ y.2.2)))

instance : DecidableRel claimKeyLe := fun x y => by
  unfold claimKeyLe; exact inferInstance

/-- The ordered rule table of the specification for `normalizeStatus`:
substring sets to canonical phase names, first match wins. -/
def statusRules : List (List String × String) :=
  [(["ratification-ready", "rat-ready"], "Ratification-Ready"),
   (["specification in publication", "publication"], "Specification in Publication"),
   (["freeze"], "Freeze"),
   (["stabilization"], "Stabilization"),
   (["under development", "development"], "Development"),
   (["planning"], "Planning"),
   (["inception"], "Inception"),
   (["cancelled"], "Cancelled")]

/-- Normalization as worded in the specification: empty/falsy input
gives `""`; otherwise the ordered rule table is evaluated top-to-bottom on
the lower-cased input with first-match-wins; if no rule matches, the
original string is returned unchanged. -/
def normalizeStatusSpec (value : Option String) : String :=
  match value with
  | none => ""
  | some v =>
    if v = "" then ""
    else
      match statusRules.find?
          (fun rule => rule.1.any (fun sub => jsIncludes (jsToLower v) sub)) with
      | some rule => rule.2
      | none => v

/-! ## Bridge lemmas: comparator versus lexicographic key -/

/-- The specification's row ordering: lexicographic comparison of the
claimed sort keys. -/
def claimLe (a b : Row) : Prop :=
  claimKeyLe (claimKey a) (claimKey b)

instance : DecidableRel claimLe := fun a b =>
  inferInstanceAs (Decidable (claimKeyLe (claimKey a) (claimKey b)))

theorem claimLe_total (a b : Row) : claimLe a b ∨ claimLe b a := by
  unfold claimLe claimKeyLe
  omega

theorem claimLe_trans {a b c : Row} (h1 : claimLe a b) (h2 : claimLe b c) :
    claimLe a c := by
  unfold claimLe claimKeyLe at h1 h2 ⊢
  omega

instance : IsTotal Row claimLe := ⟨claimLe_total⟩

instance : IsTrans Row claimLe := ⟨fun _ _ _ => claimLe_trans⟩

/-- On a label that is not an `Object.prototype` property name, the
progress lookup yields the claimed numeric rank. -/
theorem progressVal_eq_num {r : Row}
    (h : OBJECT_PROTOTYPE_PROPS.contains (jsToLower r.ratificationProgress) = false) :
    progressVal r = JsProtoVal.num (claimRank r.ratificationProgress) := by
  have hmem : jsToLower r.ratificationProgress ∉ OBJECT_PROTOTYPE_PROPS := by
    simpa using h
  unfold progressVal progressOrder claimRank
  dsimp only
  by_cases h1 : jsToLower r.ratificationProgress = "late"
  · simp [h1]
  · by_cases h2 : jsToLower r.ratificationProgress = "exposed"
    · simp [h1, h2]
    · by_cases h3 : jsToLower r.ratificationProgress = "on track"
      · simp [h1, h2, h3]
      · by_cases h4 : jsToLower r.ratificationProgress = "completed"
        · simp [h1, h2, h3, h4]
        · simp [h1, h2, h3, h4, hmem]

/-- Whenever the progress lookup yields a number at all, that number is
the claimed rank. -/
theorem progressVal_num_claimRank {r : Row} {n : Nat}
    (h : progressVal r = JsProtoVal.num n) :
    n = claimRank r.ratificationProgress := by
  unfold progressVal progressOrder at h
  unfold claimRank
  dsimp only at h ⊢
  by_cases h1 : jsToLower r.ratificationProgress = "late"
  · simp [h1] at h ⊢
    omega
  · by_cases h2 : jsToLower r.ratificationProgress = "exposed"
    · simp [h1, h2] at h ⊢
      omega
    · by_cases h3 : jsToLower r.ratificationProgress = "on track"
      · simp [h1, h2, h3] at h ⊢
        omega
      · by_cases h4 : jsToLower r.ratificationProgress = "completed"
        · simp [h1, h2, h3, h4] at h ⊢
          omega
        · by_cases hm : jsToLower r.ratificationProgress ∈ OBJECT_PROTOTYPE_PROPS
          · simp [h1, h2, h3, h4, hm] at h
          · simp [h1, h2, h3, h4, hm] at h ⊢
            omega

/-- On rows whose labels hit no `Object.prototype` property, the program's
comparator relation coincides with the specification's lexicographic key
order. -/
theorem rowLe_iff_of_safe {a b : Row}
    (ha : OBJECT_PROTOTYPE_PROPS.contains (jsToLower a.ratificationProgress) = false)
    (hb : OBJECT_PROTOTYPE_PROPS.contains (jsToLower b.ratificationProgress) = false) :
    rowLe a b ↔ claimLe a b := by
  have ha' := progressVal_eq_num ha
  have hb' := progressVal_eq_num hb
  simp only [rowLe, sortCmp, claimLe, claimKeyLe, claimKey, ha', hb']
  split <;> rename_i h1
  · simp only [ne_eq, JsProtoVal.num.injEq] at h1
    omega
  · simp only [ne_eq, JsProtoVal.num.injEq, not_not] at h1
    split <;> rename_i h2
    · omega
    · omega

/-- Rows whose sort keys are equal are tied: the comparator allows either
order (equal numeric ranks tie, and any pair involving an inherited
`Object.prototype` value ties through the `NaN` path). -/
theorem rowLe_of_key_eq {a b : Row} (h : claimKey a = claimKey b) :
    rowLe a b := by
  have h1 : claimRank a.ratificationProgress = claimRank b.ratificationProgress := by
    simpa [claimKey] using congrArg Prod.fst h
  have h2 : (parseQuarter (some a.trendingQuarter)).year
      = (parseQuarter (some b.trendingQuarter)).year := by
    simpa [claimKey] using congrArg (fun x => x.2.1) h
  have h3 : (parseQuarter (some a.trendingQuarter)).qtr
      = (parseQuarter (some b.trendingQuarter)).qtr := by
    simpa [claimKey] using congrArg (fun x => x.2.2) h
  unfold rowLe sortCmp
  dsimp only
  split <;> rename_i hne
  · cases hva : progressVal a with
    | inherited s =>
      cases progressVal b <;> simp
    | num x =>
      cases hvb : progressVal b with
      | inherited s => simp
      | num y =>
        have hx := progressVal_num_claimRank hva
        have hy := progressVal_num_claimRank hvb
        dsimp only
        omega
  · split <;> rename_i h4
    · omega
    · omega

/-! ## Sort congruence: two relations agreeing on a list sort it equally -/

theorem orderedInsert_congr {α : Type} {r s : α → α → Prop}
    [DecidableRel r] [DecidableRel s] (a : α) :
    ∀ (l : List α), (∀ b ∈ l, (r a b ↔ s a b)) →
      List.orderedInsert r a l = List.orderedInsert s a l
  | [], _ => rfl
  | b :: l, h => by
    simp only [List.orderedInsert]
    by_cases hr : r a b
    · rw [if_pos hr, if_pos ((h b (List.mem_cons_self b l)).mp hr)]
    · rw [if_neg hr, if_neg (fun hs => hr ((h b (List.mem_cons_self b l)).mpr hs))]
      rw [orderedInsert_congr a l (fun c hc => h c (List.mem_cons_of_mem b hc))]

theorem insertionSort_congr {α : Type} {r s : α → α → Prop}
    [DecidableRel r] [DecidableRel s] :
    ∀ (l : List α), (∀ a ∈ l, ∀ b ∈ l, (r a b ↔ s a b)) →
      List.insertionSort r l = List.insertionSort s l
  | [], _ => rfl
  | a :: l, h => by
    simp only [List.insertionSort]
    rw [insertionSort_congr l
      (fun x hx y hy => h x (List.mem_cons_of_mem a hx) y (List.mem_cons_of_mem a hy))]
    apply orderedInsert_congr
    intro b hb
    have hbl : b ∈ l := (List.mem_insertionSort s).mp hb
    exact h a (List.mem_cons_self a l) b (List.mem_cons_of_mem a hbl)

/-! ## `indexOfJS` lemmas -/

theorem indexOfAux_nonneg_iff (x : String) :
    ∀ (xs : List String) (i : Nat), 0 ≤ indexOfAux x xs i ↔ x ∈ xs := by
  intro xs
  induction xs with
  | nil => intro i; simp [indexOfAux]
  | cons y ys ih =>
    intro i
    by_cases h : y = x
    · subst h
      simp [indexOfAux]
    · have hx : ¬x = y := fun hxy => h hxy.symm
      simp [indexOfAux, h, ih (i + 1), List.mem_cons, hx]

theorem indexOfJS_nonneg_iff (xs : List String) (x : String) :
    0 ≤ indexOfJS xs x ↔ x ∈ xs :=
  indexOfAux_nonneg_iff x xs 0

theorem display_mem_workflow {p : String} (hp : p ∈ DISPLAY_PHASES) :
    p ∈ WORKFLOW_PHASES := by
  fin_cases hp <;> decide

/-! ## Sort lemmas -/

theorem sortRows_perm (rows : List Row) : (sortRows rows).Perm rows :=
  List.perm_insertionSort rowLe rows

/-- On an input list whose rows hit no `Object.prototype` property name,
the program's sort equals the sort by the specification's key order. -/
theorem sortRows_eq_claimSort (rows : List Row)
    (hsafe : ∀ r ∈ rows,
      OBJECT_PROTOTYPE_PROPS.contains (jsToLower r.ratificationProgress) = false) :
    sortRows rows = List.insertionSort claimLe rows :=
  insertionSort_congr rows
    (fun a ha b hb => rowLe_iff_of_safe (hsafe a ha) (hsafe b hb))

/-- Stability of the sort: for every sort-key value, the rows carrying that
key appear in the output exactly as they appeared in the input. -/
theorem sortRows_stable (rows : List Row) (k : Nat × Nat × Nat) :
    (sortRows rows).filter (fun r => decide (claimKey r = k))
      = rows.filter (fun r => decide (claimKey r = k)) := by
  have hpair : (rows.filter (fun r => decide (claimKey r = k))).Pairwise rowLe := by
    apply List.pairwise_of_forall_mem_list
    intro a ha b hb
    have hak : claimKey a = k := of_decide_eq_true (List.mem_filter.mp ha).2
    have hbk : claimKey b = k := of_decide_eq_true (List.mem_filter.mp hb).2
    exact rowLe_of_key_eq (hak.trans hbk.symm)
  have hsub : List.Sublist (rows.filter (fun r => decide (claimKey r = k)))
      (sortRows rows) :=
    List.sublist_insertionSort hpair (List.filter_sublist rows)
  have hidem : (rows.filter (fun r => decide (claimKey r = k))).filter
      (fun r => decide (claimKey r = k)) = rows.filter (fun r => decide (claimKey r = k)) :=
    List.filter_eq_self.mpr (fun a ha => (List.mem_filter.mp ha).2)
  have hsub2 : List.Sublist (rows.filter (fun r => decide (claimKey r = k)))
      ((sortRows rows).filter (fun r => decide (claimKey r = k))) := by
    have := hsub.filter (fun r => decide (claimKey r = k))
    rwa [hidem] at this
  have hlen : (rows.filter (fun r => decide (claimKey r = k))).length
      = ((sortRows rows).filter (fun r => decide (claimKey r = k))).length :=
    (((sortRows_perm rows).filter (fun r => decide (claimKey r = k))).length_eq).symm
  exact (hsub2.eq_of_length hlen).symm

/-! ## Concrete sample records (used by end-to-end claims) -/

/-- The "Late" sample record of the specification's end-to-end example. -/
def rawLate : RawRecord := fun k =>
  if k = "Status" then some "Late... Freeze"
  else if k = "Target Ratification Quarter" then some "Q1 26"
  else none

/-- The "On Track" sample record of the specification's end-to-end example. -/
def rawOnTrack : RawRecord := fun k =>
  if k = "Status" then some "On Track Development"
  else if k = "Target Ratification Quarter" then some "Q4 25"
  else none

/-- A record with every column absent. -/
def emptyRaw : RawRecord := fun _ => none

/-- A record whose progress label collides with an inherited
`Object.prototype` property name. -/
def rawCtor : RawRecord := fun k =>
  if k = "Ratification Progress" then some "constructor" else none

/-- A record whose progress label is the highest-priority rank "Late". -/
def rawLateProgress : RawRecord := fun k =>
  if k = "Ratification Progress" then some "Late" else none

/-! ## Claim theorems -/

/-- C1 (counterexample): the row labelled "constructor" does not get rank
99 — the lookup finds `Object.prototype.constructor`, `?? 99` does not
fire, the comparator's subtraction yields `NaN` (a tie after
`SortCompare`), and the stable sort leaves the "constructor" row in front
of the rank-0 "Late" row, so the output is not ordered by the claimed
rank key. -/
theorem C1_counterexample :
    (pipeline [rawCtor, rawLateProgress]).map Row.ratificationProgress
      = ["constructor", "Late"]
    ∧ claimRank "Late" = 0
    ∧ claimRank "constructor" = 99
    ∧ ¬(pipeline [rawCtor, rawLateProgress]).Pairwise
        (fun a b => claimKeyLe (claimKey a) (claimKey b)) := by decide

/-- C1 (amended): for every input collection of rows in which no row's
lower-cased `ratificationProgress` is the name of an `Object.prototype`
property (only "constructor" and "__proto__" are reachable for
lower-cased labels), after removing every row whose status contains
"cancelled" case-insensitively, the pipeline's sort permutes exactly the
remaining rows, orders them ascending by the lexicographic key (progress
rank, then parsed trending-quarter year, then quarter), and is stable:
for every key value, the rows carrying that key keep their original
relative order. -/
theorem C1_sort_contract (rows : List Row)
    (hsafe : ∀ r ∈ rows,
      OBJECT_PROTOTYPE_PROPS.contains (jsToLower r.ratificationProgress) = false) :
    (sortRows (rows.filter keepRow)).Perm (rows.filter keepRow)
    ∧ (sortRows (rows.filter keepRow)).Sorted
        (fun a b => claimKeyLe (claimKey a) (claimKey b))
    ∧ ∀ k : Nat × Nat × Nat,
        (sortRows (rows.filter keepRow)).filter (fun r => decide (claimKey r = k))
          = (rows.filter keepRow).filter (fun r => decide (claimKey r = k)) := by
  refine ⟨sortRows_perm _, ?_, fun k => sortRows_stable _ k⟩
  rw [sortRows_eq_claimSort (rows.filter keepRow)
    (fun r hr => hsafe r (List.mem_of_mem_filter hr))]
  exact List.sorted_insertionSort claimLe (rows.filter keepRow)

/-- C1 witness: the amended contract applied to a concrete two-row
snapshot whose labels are safe. -/
theorem C1_sort_contract_witness :
    (sortRows (([normalizeRow rawLate, normalizeRow rawOnTrack]).filter keepRow)).Sorted
      (fun a b => claimKeyLe (claimKey a) (claimKey b)) :=
  (C1_sort_contract [normalizeRow rawLate, normalizeRow rawOnTrack] (by decide)).2.1

/-- C2: for every snapshot and every search-term / BoD-only toggle state,
no row whose status contains the substring "cancelled" (in any case)
appears in the sorted, filtered output sequence. -/
theorem C2_no_cancelled_displayed (raws : List RawRecord) (term : String)
    (bodOnly : Bool) :
    (displayRows (pipeline raws) term bodOnly).all
      (fun row => !(jsIncludes (jsToLower row.status) "cancelled")) = true := by
  simp only [List.all_eq_true]
  intro row hrow
  simp only [displayRows] at hrow
  have h1 : row ∈ pipeline raws := List.mem_of_mem_filter hrow
  simp only [pipeline] at h1
  have h2 : row ∈ (raws.map normalizeRow).filter keepRow :=
    ((sortRows_perm _).mem_iff).mp h1
  have h3 : keepRow row = true := (List.mem_filter.mp h2).2
  simpa [keepRow] using h3

/-- C3 (counterexample): "Freeze planning" contains "planning" (any case)
but `normalizeStatus` returns "Freeze", because the "freeze" rule is
checked first. -/
theorem C3_counterexample :
    jsIncludes (jsToLower "Freeze planning") "planning" = true
    ∧ normalizeStatus (some "Freeze planning") ≠ "Planning" := by decide

/-- C3 (amended): for every string that contains "planning" in any letter
case and matches none of the earlier rules (ratification-ready, rat-ready,
specification in publication, publication, freeze, stabilization, under
development, development), `normalizeStatus` returns "Planning". -/
theorem C3_planning_amended (s : String)
    (hp : jsIncludes (jsToLower s) "planning" = true)
    (h1 : jsIncludes (jsToLower s) "ratification-ready" = false)
    (h2 : jsIncludes (jsToLower s) "rat-ready" = false)
    (h3 : jsIncludes (jsToLower s) "specification in publication" = false)
    (h4 : jsIncludes (jsToLower s) "publication" = false)
    (h5 : jsIncludes (jsToLower s) "freeze" = false)
    (h6 : jsIncludes (jsToLower s) "stabilization" = false)
    (h7 : jsIncludes (jsToLower s) "under development" = false)
    (h8 : jsIncludes (jsToLower s) "development" = false) :
    normalizeStatus (some s) = "Planning" := by
  have hs : ¬s = "" := by
    intro h
    subst h
    exact absurd hp (by decide)
  simp [normalizeStatus, hs, hp, h1, h2, h3, h4, h5, h6, h7, h8]

/-- C3 witness: a string containing "planning" and no earlier-rule
substring indeed normalizes to "Planning". -/
theorem C3_planning_amended_witness :
    normalizeStatus (some "In Planning") = "Planning" :=
  C3_planning_amended "In Planning" (by decide) (by decide) (by decide)
    (by decide) (by decide) (by decide) (by decide) (by decide) (by decide)

/-- C4 (counterexample): `parseQuarter("Q3 25")` does not return
`{year 2025, qtr 3}`: the pattern `(\d{2,4})\D*([1-4])` needs the 2–4
digit year group before the quarter digit, so "Q3 25" has no match and the
sentinel is returned. -/
theorem C4_counterexample :
    parseQuarter (some "Q3 25") = ⟨9999, 9⟩
    ∧ parseQuarter (some "Q3 25") ≠ ⟨2025, 3⟩ := by decide

/-- C4 (amended): `parseQuarter("Q3 25")`, `parseQuarter("")` and
`parseQuarter("no quarter info")` all return the sentinel
`{year 9999, qtr 9}`. -/
theorem C4_parseQuarter_values :
    parseQuarter (some "Q3 25") = ⟨9999, 9⟩
    ∧ parseQuarter (some "") = ⟨9999, 9⟩
    ∧ parseQuarter (some "no quarter info") = ⟨9999, 9⟩ := by decide

/-- C5 (counterexample): in the two-row end-to-end example the "Late" row's
progress rank is 99, not 0 — the rank is computed from
`ratificationProgress` (absent in both rows), not from `status`. -/
theorem C5_counterexample :
    claimRank (normalizeRow rawLate).ratificationProgress ≠ 0
    ∧ claimRank (normalizeRow rawLate).ratificationProgress = 99 := by decide

/-- C5 (amended): the pipeline still places the "Late" row first, but both
rows carry rank 99 and both trending quarters parse to the sentinel, so
the order is preserved by sort stability, not by rank 0 dominance. -/
theorem C5_order :
    (pipeline [rawLate, rawOnTrack]).map Row.status
      = ["Late... Freeze", "On Track Development"]
    ∧ claimRank (normalizeRow rawLate).ratificationProgress = 99
    ∧ claimRank (normalizeRow rawOnTrack).ratificationProgress = 99
    ∧ parseQuarter (some (normalizeRow rawLate).trendingQuarter) = ⟨9999, 9⟩
    ∧ parseQuarter (some (normalizeRow rawOnTrack).trendingQuarter) = ⟨9999, 9⟩ := by
  decide

/-- C6: `normalizeStatus` coincides with the specification's ordered rule
table — "" for empty/falsy input, first-match-wins over the lower-cased
input, passthrough of the original string when no rule matches. -/
theorem C6_normalizeStatus_rules (value : Option String) :
    normalizeStatus value = normalizeStatusSpec value := by
  cases value with
  | none => rfl
  | some v =>
    by_cases hv : v = ""
    · subst hv; rfl
    · simp only [normalizeStatus, normalizeStatusSpec, statusRules, hv, if_false,
        List.find?, List.any_cons, List.any_nil, Bool.or_false]
      cases h1 : (jsIncludes (jsToLower v) "ratification-ready"
          || jsIncludes (jsToLower v) "rat-ready")
      on_goal 2 => rfl
      cases h2 : (jsIncludes (jsToLower v) "specification in publication"
          || jsIncludes (jsToLower v) "publication")
      on_goal 2 => rfl
      cases h3 : jsIncludes (jsToLower v) "freeze"
      on_goal 2 => rfl
      cases h4 : jsIncludes (jsToLower v) "stabilization"
      on_goal 2 => rfl
      cases h5 : (jsIncludes (jsToLower v) "under development"
          || jsIncludes (jsToLower v) "development")
      on_goal 2 => rfl
      cases h6 : jsIncludes (jsToLower v) "planning"
      on_goal 2 => rfl
      cases h7 : jsIncludes (jsToLower v) "inception"
      on_goal 2 => rfl
      cases h8 : jsIncludes (jsToLower v) "cancelled"
      on_goal 2 => rfl
      rfl

/-- C7: `isBodReport` is false on null/undefined and on empty-after-trim
values; true on the explicit true set; false on the explicit false set;
otherwise it equals "trimmed lower-cased value contains the substring
yes" — in exactly this precedence. -/
theorem C7_isBodReport_contract :
    isBodReport none = false
    ∧ (∀ s : String, jsTrim s = "" → isBodReport (some s) = false)
    ∧ (∀ s : String,
        (["yes", "true", "y", "1"] : List String).contains (jsToLower (jsTrim s))
          = true →
        isBodReport (some s) = true)
    ∧ (∀ s : String,
        (["no", "false", "n", "0"] : List String).contains (jsToLower (jsTrim s))
          = true →
        isBodReport (some s) = false)
    ∧ (∀ s : String,
        (["yes", "true", "y", "1"] : List String).contains (jsToLower (jsTrim s))
          = false →
        (["no", "false", "n", "0"] : List String).contains (jsToLower (jsTrim s))
          = false →
        isBodReport (some s) = jsIncludes (jsToLower (jsTrim s)) "yes") := by
  refine ⟨rfl, ?_, ?_, ?_, ?_⟩
  · intro s h
    have hz : jsToLower (jsTrim s) = "" := by rw [h]; rfl
    simp only [isBodReport]
    rw [if_pos hz]
  · intro s h
    have hne : ¬jsToLower (jsTrim s) = "" := by
      intro he
      rw [he] at h
      exact absurd h (by decide)
    simp only [isBodReport]
    rw [if_neg hne, if_pos h]
  · intro s h
    have hne : ¬jsToLower (jsTrim s) = "" := by
      intro he
      rw [he] at h
      exact absurd h (by decide)
    have ht : ¬(["yes", "true", "y", "1"] : List String).contains (jsToLower (jsTrim s))
        = true := by
      intro htc
      rcases List.contains_iff_exists_mem_beq.mp htc with ⟨a, ha, hba⟩
      have hna : jsToLower (jsTrim s) = a := eq_of_beq hba
      rcases List.contains_iff_exists_mem_beq.mp h with ⟨b, hb, hbb⟩
      have hnb : jsToLower (jsTrim s) = b := eq_of_beq hbb
      have hab : a = b := hna.symm.trans hnb
      fin_cases ha <;> fin_cases hb <;> exact absurd hab (by decide)
    simp only [isBodReport]
    rw [if_neg hne, if_neg ht, if_pos h]
  · intro s h1 h2
    have h1' : ¬(["yes", "true", "y", "1"] : List String).contains (jsToLower (jsTrim s))
        = true := by
      intro htc
      rw [htc] at h1
      exact Bool.noConfusion h1
    have h2' : ¬(["no", "false", "n", "0"] : List String).contains (jsToLower (jsTrim s))
        = true := by
      intro htc
      rw [htc] at h2
      exact Bool.noConfusion h2
    by_cases he : jsToLower (jsTrim s) = ""
    · simp only [isBodReport]
      rw [if_pos he, he]
      decide
    · simp only [isBodReport]
      rw [if_neg he, if_neg h1', if_neg h2']

/-- C7 witness: the contract evaluated at concrete inputs from each
branch. -/
theorem C7_isBodReport_contract_witness :
    isBodReport (some "   ") = false
    ∧ isBodReport (some " TRUE ") = true
    ∧ isBodReport (some "No") = false
    ∧ isBodReport (some "well, yes indeed") = true :=
  ⟨C7_isBodReport_contract.2.1 "   " (by decide),
   C7_isBodReport_contract.2.2.1 " TRUE " (by decide),
   C7_isBodReport_contract.2.2.2.1 "No" (by decide),
   (C7_isBodReport_contract.2.2.2.2 "well, yes indeed" (by decide)
     (by decide)).trans (by decide)⟩

/-! ## Quarter-digit range lemmas (for totality) -/

theorem tryWidth_qtr_range {cs : List Char} {d y q : Nat}
    (h : tryWidth cs d = some (y, q)) : 1 ≤ q ∧ q ≤ 4 := by
  unfold tryWidth at h
  split at h
  · split at h
    · dsimp only at h
      split at h
      · rename_i hcond
        injection h with h2
        injection h2 with hy hq
        subst hq
        exact hcond
      · exact Option.noConfusion h
    · exact Option.noConfusion h
  · exact Option.noConfusion h

theorem matchAt_qtr_range {cs : List Char} {y q : Nat}
    (h : matchAt cs = some (y, q)) : 1 ≤ q ∧ q ≤ 4 := by
  unfold matchAt at h
  cases h4 : tryWidth cs 4 with
  | some m =>
    rw [h4] at h
    injection h with hm
    subst hm
    exact tryWidth_qtr_range h4
  | none =>
    rw [h4] at h
    cases h3 : tryWidth cs 3 with
    | some m =>
      rw [h3] at h
      injection h with hm
      subst hm
      exact tryWidth_qtr_range h3
    | none =>
      rw [h3] at h
      exact tryWidth_qtr_range h

theorem findQuarterMatch_qtr_range :
    ∀ {cs : List Char} {y q : Nat},
      findQuarterMatch cs = some (y, q) → 1 ≤ q ∧ q ≤ 4 := by
  intro cs
  induction cs with
  | nil => intro y q h; exact Option.noConfusion h
  | cons c rest ih =>
    intro y q h
    unfold findQuarterMatch at h
    cases hm : matchAt (c :: rest) with
    | some m =>
      rw [hm] at h
      injection h with hm2
      subst hm2
      exact matchAt_qtr_range hm
    | none =>
      rw [hm] at h
      exact ih h

/-- C8: the three classifiers are total with documented defaults:
`normalizeStatus` returns "", a canonical phase, or the input unchanged;
`parseQuarter` returns the sentinel or a quarter between 1 and 4;
`isBodReport` always returns a boolean. -/
theorem C8_classifiers_total (v : Option String) :
    (normalizeStatus v = ""
      ∨ normalizeStatus v ∈ (["Ratification-Ready", "Specification in Publication",
          "Freeze", "Stabilization", "Development", "Planning", "Inception",
          "Cancelled"] : List String)
      ∨ v = some (normalizeStatus v))
    ∧ (parseQuarter v = ⟨9999, 9⟩
      ∨ (1 ≤ (parseQuarter v).qtr ∧ (parseQuarter v).qtr ≤ 4))
    ∧ (isBodReport v = true ∨ isBodReport v = false) := by
  refine ⟨?_, ?_, ?_⟩
  · cases v with
    | none => exact Or.inl rfl
    | some s =>
      by_cases hs : s = ""
      · subst hs; exact Or.inl rfl
      · simp only [normalizeStatus]
        rw [if_neg hs]
        repeat' split
        all_goals first
          | exact Or.inr (Or.inl (by decide))
          | exact Or.inr (Or.inr rfl)
  · cases v with
    | none => exact Or.inl rfl
    | some s =>
      by_cases hs : s = ""
      · subst hs; exact Or.inl rfl
      · simp only [parseQuarter]
        rw [if_neg hs]
        cases hm : findQuarterMatch (jsTrim s).data with
        | none => exact Or.inl rfl
        | some m =>
          obtain ⟨y, q⟩ := m
          right
          dsimp only
          exact findQuarterMatch_qtr_range hm
  · rcases Bool.eq_false_or_eq_true (isBodReport v) with h | h
    · exact Or.inl h
    · exact Or.inr h

/-- C9: `normalizeRow` sources `plannedQuarter` from "Baseline Ratification
Quarter" with fallback to "Planned Ratification Quarter" when the former
is absent or empty, sources `trendingQuarter` from "Target Ratification
Quarter" with fallback to "Trending Ratification Quarter", and every
absent column yields the empty string in the corresponding field. -/
theorem C9_normalizeRow_sources (raw : RawRecord) :
    (∀ s : String, ¬s = "" → raw "Baseline Ratification Quarter" = some s →
        (normalizeRow raw).plannedQuarter = s)
    ∧ ((raw "Baseline Ratification Quarter" = none
        ∨ raw "Baseline Ratification Quarter" = some "") →
        (normalizeRow raw).plannedQuarter = col raw "Planned Ratification Quarter")
    ∧ (∀ s : String, ¬s = "" → raw "Target Ratification Quarter" = some s →
        (normalizeRow raw).trendingQuarter = s)
    ∧ ((raw "Target Ratification Quarter" = none
        ∨ raw "Target Ratification Quarter" = some "") →
        (normalizeRow raw).trendingQuarter = col raw "Trending Ratification Quarter")
    ∧ (raw "Jira URL" = none → (normalizeRow raw).jiraUrl = "")
    ∧ (raw "Summary" = none → (normalizeRow raw).summary = "")
    ∧ (raw "Status" = none → (normalizeRow raw).status = "")
    ∧ (raw "Updated" = none → (normalizeRow raw).updated = "")
    ∧ (raw "ISA or NON-ISA?" = none → (normalizeRow raw).isaOrNonIsa = "")
    ∧ ((raw "Baseline Ratification Quarter" = none
        ∧ raw "Planned Ratification Quarter" = none) →
        (normalizeRow raw).plannedQuarter = "")
    ∧ ((raw "Target Ratification Quarter" = none
        ∧ raw "Trending Ratification Quarter" = none) →
        (normalizeRow raw).trendingQuarter = "")
    ∧ (raw "Ratification Progress" = none →
        (normalizeRow raw).ratificationProgress = "")
    ∧ (raw "Previous Ratification Progress" = none →
        (normalizeRow raw).previousRatificationProgress = "")
    ∧ (raw "GitHub" = none → (normalizeRow raw).github = "")
    ∧ (raw "BoD Report" = none → (normalizeRow raw).bodReport = "") := by
  refine ⟨?_, ?_, ?_, ?_, ?_, ?_, ?_, ?_, ?_, ?_, ?_, ?_, ?_, ?_, ?_⟩
  · intro s hne h
    simp [normalizeRow, col, jsOr, h, hne]
  · intro h
    rcases h with h | h <;> simp [normalizeRow, col, jsOr, h]
  · intro s hne h
    simp [normalizeRow, col, jsOr, h, hne]
  · intro h
    rcases h with h | h <;> simp [normalizeRow, col, jsOr, h]
  · intro h; simp [normalizeRow, col, h]
  · intro h; simp [normalizeRow, col, h]
  · intro h; simp [normalizeRow, col, h]
  · intro h; simp [normalizeRow, col, h]
  · intro h; simp [normalizeRow, col, h]
  · intro h; simp [normalizeRow, col, jsOr, h.1, h.2]
  · intro h; simp [normalizeRow, col, jsOr, h.1, h.2]
  · intro h; simp [normalizeRow, col, h]
  · intro h; simp [normalizeRow, col, h]
  · intro h; simp [normalizeRow, col, h]
  · intro h; simp [normalizeRow, col, h]

/-- C9 witness: sample rows exercising the fallback and default cases. -/
theorem C9_normalizeRow_sources_witness :
    (normalizeRow rawLate).plannedQuarter = ""
    ∧ (normalizeRow rawOnTrack).trendingQuarter = "Q4 25"
    ∧ (normalizeRow emptyRaw).summary = "" :=
  ⟨((C9_normalizeRow_sources rawLate).2.1 (Or.inl (by decide))).trans (by decide),
   (C9_normalizeRow_sources rawOnTrack).2.2.1 "Q4 25" (by decide) (by decide),
   (C9_normalizeRow_sources emptyRaw).2.2.2.2.2.1 rfl⟩

/-- C10: for every row and display phase, the phase cell is "In Progress"
exactly when the phase equals the row's current phase, "✓" exactly when
the current phase is a workflow phase and the display phase strictly
precedes it in workflow order, and "..." otherwise; in particular an
empty, Cancelled, or unrecognized current phase renders every cell
"...". -/
theorem C10_phase_display (row : Row) (phase : String)
    (hp : phase ∈ DISPLAY_PHASES) :
    (getPhaseDisplay row phase = "In Progress" ↔ phase = row.currentPhase)
    ∧ (getPhaseDisplay row phase = "✓" ↔
        (row.currentPhase ∈ WORKFLOW_PHASES
          ∧ indexOfJS WORKFLOW_PHASES phase
              < indexOfJS WORKFLOW_PHASES row.currentPhase))
    ∧ (getPhaseDisplay row phase = "..." ↔
        (¬phase = row.currentPhase
          ∧ ¬(row.currentPhase ∈ WORKFLOW_PHASES
            ∧ indexOfJS WORKFLOW_PHASES phase
                < indexOfJS WORKFLOW_PHASES row.currentPhase)))
    ∧ (row.currentPhase ∉ WORKFLOW_PHASES → getPhaseDisplay row phase = "...") := by
  have hpw : phase ∈ WORKFLOW_PHASES := display_mem_workflow hp
  by_cases heq : phase = row.currentPhase
  · simp only [getPhaseDisplay]
    rw [if_pos heq]
    refine ⟨iff_of_true rfl heq, ?_, ?_, ?_⟩
    · refine iff_of_false (by decide) ?_
      intro h2
      rcases h2 with ⟨_, hlt⟩
      rw [heq] at hlt
      exact lt_irrefl _ hlt
    · exact iff_of_false (by decide) (fun h2 => h2.1 heq)
    · intro hnm
      exact absurd (heq ▸ hpw) hnm
  · by_cases hcond : 0 ≤ indexOfJS WORKFLOW_PHASES row.currentPhase
        ∧ indexOfJS WORKFLOW_PHASES phase < indexOfJS WORKFLOW_PHASES row.currentPhase
    · have hmem : row.currentPhase ∈ WORKFLOW_PHASES :=
        (indexOfJS_nonneg_iff _ _).mp hcond.1
      simp only [getPhaseDisplay]
      rw [if_neg heq, if_pos hcond]
      refine ⟨iff_of_false (by decide) heq,
        iff_of_true rfl ⟨hmem, hcond.2⟩,
        iff_of_false (by decide) (fun h2 => h2.2 ⟨hmem, hcond.2⟩),
        fun hnm => absurd hmem hnm⟩
    · have hno : ¬(row.currentPhase ∈ WORKFLOW_PHASES
          ∧ indexOfJS WORKFLOW_PHASES phase
              < indexOfJS WORKFLOW_PHASES row.currentPhase) := by
        intro h2
        exact hcond ⟨(indexOfJS_nonneg_iff _ _).mpr h2.1, h2.2⟩
      simp only [getPhaseDisplay]
      rw [if_neg heq, if_neg hcond]
      exact ⟨iff_of_false (by decide) heq,
        iff_of_false (by decide) hno,
        iff_of_true rfl ⟨heq, hno⟩,
        fun _ => rfl⟩

/-- C10 witness: on the sample "Late... Freeze" row (current phase
Freeze), the Planning cell shows "✓". -/
theorem C10_phase_display_witness :
    getPhaseDisplay (normalizeRow rawLate) "Planning" = "✓" := by
  have h := C10_phase_display (normalizeRow rawLate) "Planning" (by decide)
  exact h.2.1.mpr (by decide)

end BodReport
